import Mathlib

/-!
Verification development for the gdt-core spectral data model and the
pulse/background profile functions.

Part A embeds src/src/gdt/core/simulate/profiles.py.  NumPy double arrays
are modelled as lists over `FP`, an exact abstraction of IEEE-754 binary64:
finite values carry an exact rational payload, and the special values
+inf, -inf and NaN are explicit constructors.  The abstraction has a single
zero (no signed zero).  The transcendental kernels `np.exp` and `np.sqrt`
on *finite, strictly positive* arguments are abstracted by function
parameters (`e`, `s` below): every theorem proved here holds for any
choice of those kernels, and none of the claims depends on their finite
values.  On special values the kernels follow IEEE-754 exactly
(exp(-inf) = 0, exp(+inf) = +inf, sqrt of a negative is NaN, and NaN
propagates).

Part B models the SpectrumRecord (Pha) core.  Its implementation is not
part of this repository snapshot (only its test suite is), so it is
modelled from the specification; every such definition carries a
`Modelled from the spec:` doc comment.  Python floats are modelled as
exact rationals there, since the spec speaks of exact values and
decimal-place tolerances.
-/

namespace Gdt

/-! Exact rational arithmetic in a kernel-evaluable normal form.  The
`q`-operations below are ordinary ℚ arithmetic (the `qadd_eq_add` family
of lemmas proves it), expressed through `mkRat` so that concrete runs of
the embedded programs can be evaluated inside proofs. -/

/-- Rational negation through `mkRat`; equals `-a` (`qneg_eq_neg`). -/
def qneg (a : ℚ) : ℚ := mkRat (-a.num) a.den

/-- Rational addition through `mkRat`; equals `a + b` (`qadd_eq_add`). -/
def qadd (a b : ℚ) : ℚ := mkRat (a.num * b.den + b.num * a.den) (a.den * b.den)

/-- Rational subtraction through `mkRat`; equals `a - b` (`qsub_eq_sub`). -/
def qsub (a b : ℚ) : ℚ := mkRat (a.num * b.den - b.num * a.den) (a.den * b.den)

/-- Rational multiplication through `mkRat`; equals `a * b`
(`qmul_eq_mul`). -/
def qmul (a b : ℚ) : ℚ := mkRat (a.num * b.num) (a.den * b.den)

/-- Rational division through `mkRat`; equals `a / b` (`qdiv_eq_div`),
with the ℚ convention that division by zero is zero. -/
def qdiv (a b : ℚ) : ℚ :=
  if b.num < 0 then mkRat (-(a.num * b.den)) (a.den * b.num.natAbs)
  else mkRat (a.num * b.den) (a.den * b.num.natAbs)

/-- The sum of a list of rationals, folded with `qadd`; equals the
ordinary list sum (`qsum_eq_sum`). -/
def qsum : List ℚ → ℚ
  | [] => 0
  | a :: as => qadd a (qsum as)

/-- Abstraction of an IEEE-754 binary64 value: an exact rational payload for
finite values, plus the special values.  There is no signed zero. -/
inductive FP where
  | fin (q : ℚ)
  | pinf
  | ninf
  | nan
deriving DecidableEq

/-- True exactly on finite values (neither infinite nor NaN). -/
def FP.isFinite : FP → Bool
  | .fin _ => true
  | _ => false

/-- IEEE negation. -/
def FP.neg : FP → FP
  | .fin q => .fin (qneg q)
  | .pinf => .ninf
  | .ninf => .pinf
  | .nan => .nan

/-- IEEE addition (NaN propagates; opposite infinities give NaN). -/
def FP.add : FP → FP → FP
  | .fin a, .fin b => .fin (qadd a b)
  | .fin _, .pinf => .pinf
  | .fin _, .ninf => .ninf
  | .fin _, .nan => .nan
  | .pinf, .fin _ => .pinf
  | .pinf, .pinf => .pinf
  | .pinf, .ninf => .nan
  | .pinf, .nan => .nan
  | .ninf, .fin _ => .ninf
  | .ninf, .pinf => .nan
  | .ninf, .ninf => .ninf
  | .ninf, .nan => .nan
  | .nan, _ => .nan

/-- IEEE subtraction, as addition of the negation. -/
def FP.sub (a b : FP) : FP := FP.add a (FP.neg b)

/-- IEEE multiplication (NaN propagates; infinity times zero is NaN). -/
def FP.mul : FP → FP → FP
  | .fin a, .fin b => .fin (qmul a b)
  | .fin a, .pinf => if 0 < a then .pinf else if a < 0 then .ninf else .nan
  | .fin a, .ninf => if 0 < a then .ninf else if a < 0 then .pinf else .nan
  | .fin _, .nan => .nan
  | .pinf, .fin b => if 0 < b then .pinf else if b < 0 then .ninf else .nan
  | .pinf, .pinf => .pinf
  | .pinf, .ninf => .ninf
  | .pinf, .nan => .nan
  | .ninf, .fin b => if 0 < b then .ninf else if b < 0 then .pinf else .nan
  | .ninf, .pinf => .ninf
  | .ninf, .ninf => .pinf
  | .ninf, .nan => .nan
  | .nan, _ => .nan

/-- IEEE division.  Division of a nonzero finite value by zero yields a
signed infinity (the model's single zero behaves as +0, matching the
Python literal `0` the tests and claims use); 0/0 and inf/inf are NaN;
a finite value divided by an infinity is 0. -/
def FP.div : FP → FP → FP
  | .fin a, .fin b =>
      if b = 0 then (if a = 0 then .nan else if 0 < a then .pinf else .ninf)
      else .fin (qdiv a b)
  | .fin _, .pinf => .fin 0
  | .fin _, .ninf => .fin 0
  | .fin _, .nan => .nan
  | .pinf, .fin b => if b < 0 then .ninf else .pinf
  | .pinf, .pinf => .nan
  | .pinf, .ninf => .nan
  | .pinf, .nan => .nan
  | .ninf, .fin b => if b < 0 then .pinf else .ninf
  | .ninf, .pinf => .nan
  | .ninf, .ninf => .nan
  | .ninf, .nan => .nan
  | .nan, _ => .nan

/-- IEEE comparison `<=`: any comparison involving NaN is false. -/
def FP.le : FP → FP → Bool
  | .fin a, .fin b => decide (a ≤ b)
  | .fin _, .pinf => true
  | .fin _, .ninf => false
  | .pinf, .fin _ => false
  | .pinf, .pinf => true
  | .pinf, .ninf => false
  | .ninf, .fin _ => true
  | .ninf, .pinf => true
  | .ninf, .ninf => true
  | _, _ => false

/-- IEEE comparison `<`: any comparison involving NaN is false. -/
def FP.lt : FP → FP → Bool
  | .fin a, .fin b => decide (a < b)
  | .fin _, .pinf => true
  | .fin _, .ninf => false
  | .pinf, _ => false
  | .ninf, .fin _ => true
  | .ninf, .pinf => true
  | .ninf, .ninf => false
  | _, _ => false

/-- `np.sqrt` on the FP abstraction: NaN for negative (or NaN, or -inf)
arguments, +inf for +inf, 0 for 0, and the abstract kernel `s` for
strictly positive finite arguments. -/
def FP.sqrtWith (s : ℚ → ℚ) : FP → FP
  | .fin q => if q < 0 then .nan else if q = 0 then .fin 0 else .fin (s q)
  | .pinf => .pinf
  | .ninf => .nan
  | .nan => .nan

/-- `np.exp` on the FP abstraction: exp(-inf) = 0, exp(+inf) = +inf, NaN
propagates, and the abstract kernel `e` gives the value on finite
arguments. -/
def FP.expWith (e : ℚ → ℚ) : FP → FP
  | .fin q => .fin (e q)
  | .pinf => .pinf
  | .ninf => .fin 0
  | .nan => .nan

/-- One point of `np.interp`: linear interpolation of `xi` against the
knots `pts` (pairs of abscissa and ordinate, abscissas assumed ascending),
clamping to the first/last ordinate outside the knot range, and NaN in
gives NaN out. -/
def npInterpSeg (xi : FP) : List (FP × FP) → FP
  | [] => FP.nan
  | [(_, f0)] => f0
  | (x0, f0) :: (x1, f1) :: rest =>
      if FP.lt xi x1 then
        FP.add f0 (FP.mul (FP.div (FP.sub xi x0) (FP.sub x1 x0)) (FP.sub f1 f0))
      else npInterpSeg xi ((x1, f1) :: rest)

/-- Entry point of the `np.interp` model (see `npInterpSeg`). -/
def npInterp (xi : FP) (pts : List (FP × FP)) : FP :=
  if xi = FP.nan then FP.nan
  else
    match pts with
    | [] => FP.nan
    | (x0, f0) :: _ => if FP.lt xi x0 then f0 else npInterpSeg xi pts

/-- Embeds `tophat(x, amp, tstart, tstop)`: zeros, with `amp` written at
the positions where `(x >= tstart) & (x <= tstop)`. -/
def tophat (x : List FP) (amp tstart tstop : FP) : List FP :=
  x.map (fun xi => if (FP.le tstart xi && FP.le xi tstop) = true then amp else FP.fin 0)

/-- Embeds `norris(x, amp, tstart, t_rise, t_decay)`: zeros, with
`lam * exp(-t_rise/(x-tstart) - (x-tstart)/t_decay)` written at the
positions where `x > tstart`, where
`lam = amp * exp(2.0 * sqrt(t_rise / t_decay))`.  The parameters `e` and
`s` are the abstract finite kernels of `np.exp` and `np.sqrt`. -/
def norris (e s : ℚ → ℚ) (x : List FP) (amp tstart t_rise t_decay : FP) : List FP :=
  let lam := FP.mul amp (FP.expWith e (FP.mul (FP.fin 2) (FP.sqrtWith s (FP.div t_rise t_decay))))
  x.map (fun xi =>
    if FP.lt tstart xi = true then
      FP.mul lam (FP.expWith e
        (FP.sub (FP.div (FP.neg t_rise) (FP.sub xi tstart)) (FP.div (FP.sub xi tstart) t_decay)))
    else FP.fin 0)

/-- Embeds `gaussian(x, amp, center, sigma)`:
`amp * exp(-((x - center)**2) / (2 * sigma**2))`, elementwise. -/
def gaussian (e : ℚ → ℚ) (x : List FP) (amp center sigma : FP) : List FP :=
  x.map (fun xi =>
    FP.mul amp (FP.expWith e
      (FP.div (FP.neg (FP.mul (FP.sub xi center) (FP.sub xi center)))
        (FP.mul (FP.fin 2) (FP.mul sigma sigma)))))

/-- Embeds `triangular(x, amp, tstart, tpeak, tstop)`:
`np.interp(x, [tstart, tpeak, tstop], [0, amp, 0])`. -/
def triangular (x : List FP) (amp tstart tpeak tstop : FP) : List FP :=
  x.map (fun xi => npInterp xi [(tstart, FP.fin 0), (tpeak, amp), (tstop, FP.fin 0)])

/-- Embeds `constant(x, amp)`: an array of `x.size` copies of `amp`
(`np.empty(x.size)` followed by `fill(amp)`). -/
def constant (x : List FP) (amp : FP) : List FP :=
  List.replicate x.length amp

/-- Embeds `linear(x, c0, c1)`: `c0 + c1 * x`, elementwise. -/
def linear (x : List FP) (c0 c1 : FP) : List FP :=
  x.map (fun xi => FP.add c0 (FP.mul c1 xi))

/-- Embeds `quadratic(x, c0, c1, c2)`: `linear(x, c0, c1) + c2 * x ** 2`,
an elementwise sum of the two same-length arrays. -/
def quadratic (x : List FP) (c0 c1 c2 : FP) : List FP :=
  List.zipWith FP.add (linear x c0 c1) (x.map (fun xi => FP.mul c2 (FP.mul xi xi)))

/-! ## Part B: the SpectrumRecord (Pha) core, modelled from the spec

The implementation module (`gdt.core.pha` and its data primitives) is not
in this repository snapshot; only its test suite is.  All definitions
below are therefore modelled from the specification (sections 3, 4, 6, 7),
with Python floats as exact rationals. -/

/-- Decidable equality for `Except`, used to evaluate the persistence and
validation pipelines on concrete inputs. -/
instance {ε α : Type} [DecidableEq ε] [DecidableEq α] : DecidableEq (Except ε α) :=
  fun a b =>
    match a, b with
    | .ok x, .ok y =>
      if h : x = y then isTrue (congrArg Except.ok h)
      else isFalse (fun c => h (Except.ok.inj c))
    | .error x, .error y =>
      if h : x = y then isTrue (congrArg Except.error h)
      else isFalse (fun c => h (Except.error.inj c))
    | .ok _, .error _ => isFalse (fun c => Except.noConfusion c)
    | .error _, .ok _ => isFalse (fun c => Except.noConfusion c)

/-- Modelled from the spec: the error taxonomy of section 7 (TypeKind,
ValueKind, NameKind), plus the kind raised by writing over an existing
path without overwrite, which section 7 leaves as the caller's own error
kind. -/
inductive ErrKind where
  | typeKind
  | valueKind
  | nameKind
  | existsKind
deriving DecidableEq

/-- Modelled from the spec: EnergyBounds, an ordered table of per-channel
low/high energy edges. -/
structure Ebounds where
  lo : List ℚ
  hi : List ℚ
deriving DecidableEq

/-- Modelled from the spec: GoodTimeIntervals, an ordered list of
(start, stop) time intervals. -/
structure Gti where
  intervals : List (ℚ × ℚ)
deriving DecidableEq

/-- The list of GTI start edges (`low_edges()`). -/
def Gti.lowEdges (g : Gti) : List ℚ := g.intervals.map Prod.fst

/-- The list of GTI stop edges (`high_edges()`). -/
def Gti.highEdges (g : Gti) : List ℚ := g.intervals.map Prod.snd

/-- Modelled from the spec: TimeEnergyHistogram (`TimeEnergyBins`): a 2-D
count table over (time bin, energy channel) with per-bin start/stop times
and exposure, and per-channel energy edges. -/
structure TimeEnergyBins where
  counts : List (List ℕ)
  tstart : List ℚ
  tstop : List ℚ
  exposure : List ℚ
  emin : List ℚ
  emax : List ℚ

/-- Modelled from the spec: the derived keys of the HeaderSet that the
spec requires to be kept consistent with the record (section 3):
TSTART, TSTOP, TRIGTIME in PRIMARY, DETCHANS in EBOUNDS and SPECTRUM,
and EXPOSURE in SPECTRUM.  The spec treats the remaining template
keywords as an opaque external key/value store, so only the derived keys
are modelled. -/
structure Headers where
  tstartKey : ℚ
  tstopKey : ℚ
  trigtimeKey : ℚ
  eboundsDetchans : ℕ
  spectrumDetchans : ℕ
  exposureKey : ℚ
deriving DecidableEq

/-- Modelled from the spec: the SpectrumRecord shape of section 3 for a
Pha: per-channel integer counts, energy bounds, a channel-validity mask,
exposure, optional trigger time, optional GTI, a filename set only by
write/open, and the bound header set. -/
structure SpectrumRecord where
  counts : List ℕ
  ebounds : Ebounds
  channel_mask : List Bool
  exposure : ℚ
  trigger_time : Option ℚ
  gti : Option Gti
  filename : Option String
  headers : Headers
deriving DecidableEq

/-- The number of channels of a record. -/
def SpectrumRecord.num_chans (r : SpectrumRecord) : ℕ := r.counts.length

/-- Modelled from the spec: `valid_channels` is the ascending list of
channel indices at which the mask is true. -/
def SpectrumRecord.valid_channels (r : SpectrumRecord) : List ℕ :=
  (List.range r.num_chans).filter (fun i => r.channel_mask.getD i false)

/-- The record-shape invariant the valid-channel claims use: the mask has
one entry per channel. -/
abbrev SpectrumRecord.wf (r : SpectrumRecord) : Prop :=
  r.channel_mask.length = r.counts.length

/-- The full parallel-array invariant of section 3:
`num_chans == len(channel_mask) == len(energy_bounds)`. -/
abbrev SpectrumRecord.uniform (r : SpectrumRecord) : Prop :=
  r.channel_mask.length = r.counts.length ∧
  r.ebounds.lo.length = r.counts.length ∧
  r.ebounds.hi.length = r.counts.length

/-- Modelled from the spec: `time_range` is derived from the GTI
(min start, max stop), falling back to (0, exposure) when there is no
GTI (section 3 and the `test_no_gti` behavior). -/
def timeRangePair (gti : Option Gti) (exposure : ℚ) : ℚ × ℚ :=
  match gti with
  | none => (0, exposure)
  | some g =>
    match g.intervals with
    | [] => (0, exposure)
    | iv :: rest => ((rest.map Prod.fst).foldl min iv.1, (rest.map Prod.snd).foldl max iv.2)

/-- `time_range` of a record (see `timeRangePair`). -/
def SpectrumRecord.time_range (r : SpectrumRecord) : ℚ × ℚ :=
  timeRangePair r.gti r.exposure

/-- Modelled from the spec: the derived header fields computed on every
construction/transformation (DETCHANS into both blocks, EXPOSURE,
TSTART/TSTOP from the time range, TRIGTIME). -/
def syncHeaders (n : ℕ) (exposure : ℚ) (tr : ℚ × ℚ) (trig : Option ℚ) : Headers :=
  ⟨tr.1, tr.2, trig.getD 0, n, n, exposure⟩

/-- Modelled from the spec: the runtime objects that can be passed to the
dynamically type-checked construction entry point `from_data`
(sections 4.1 and 9): a spectral data object, a GTI, a header set, a
boolean mask, or a time-energy histogram (a wrong-typed object for a
Pha's data slot). -/
inductive PyObj where
  | energyBins (counts : List ℕ) (lo : List ℚ) (hi : List ℚ) (exposure : ℚ)
  | gtiObj (intervals : List (ℚ × ℚ))
  | headersObj (h : Headers)
  | maskObj (m : List Bool)
  | histObj (counts : List (List ℕ)) (tstart tstop expo emin emax : List ℚ)
deriving DecidableEq

/-- Validation of the `gti` argument: must be a GoodTimeIntervals
instance when supplied (TypeKind otherwise). -/
def checkGti : Option PyObj → Except ErrKind (Option Gti)
  | none => .ok none
  | some (.gtiObj ivs) => .ok (some ⟨ivs⟩)
  | some _ => .error .typeKind

/-- Validation of the `trigger_time` argument: must be nonnegative when
supplied (ValueKind otherwise). -/
def checkTrigger : Option ℚ → Except ErrKind (Option ℚ)
  | none => .ok none
  | some t => if t < 0 then .error .valueKind else .ok (some t)

/-- Validation of the `headers` argument: must be a HeaderSet instance
when supplied (TypeKind otherwise). -/
def checkHeaders : Option PyObj → Except ErrKind (Option Headers)
  | none => .ok none
  | some (.headersObj h) => .ok (some h)
  | some _ => .error .typeKind

/-- Validation of the `channel_mask` argument: must be a boolean sequence
(TypeKind otherwise) of length equal to the data's channel count
(ValueKind otherwise); an omitted mask defaults to all-true. -/
def checkMask (n : ℕ) : Option PyObj → Except ErrKind (List Bool)
  | none => .ok (List.replicate n true)
  | some (.maskObj m) => if m.length = n then .ok m else .error .valueKind
  | some _ => .error .typeKind

/-- Modelled from the spec: `Pha.from_data` (section 4.1).  The data
object must be spectral data (TypeKind otherwise); the optional
arguments are validated in the order the spec lists them; on success the
derived header fields are computed and bound, and the record has no
filename. -/
def Pha.from_data (data : PyObj) (gtiArg : Option PyObj) (trigger_time : Option ℚ)
    (headersArg : Option PyObj) (channel_mask : Option PyObj) :
    Except ErrKind SpectrumRecord :=
  match data with
  | .energyBins counts lo hi exposure =>
    (checkGti gtiArg).bind fun gti =>
    (checkTrigger trigger_time).bind fun trig =>
    (checkHeaders headersArg).bind fun _ =>
    (checkMask counts.length channel_mask).bind fun mask =>
    .ok ⟨counts, ⟨lo, hi⟩, mask, exposure, trig, gti, none,
      syncHeaders counts.length exposure (timeRangePair gti exposure) trig⟩
  | _ => .error .typeKind

/-- Whether two half-open-ish intervals intersect (used for both time-bin
and energy-channel selection in integration). -/
def overlaps (a b : ℚ × ℚ) : Bool := decide (a.1 < b.2) && decide (b.1 < a.2)

/-- Modelled from the spec: integration of a TimeEnergyHistogram into a
Pha (section 4.2): select the histogram rows whose time interval
overlaps any requested time range and the channels whose bounds overlap
the energy range, sum counts across the selected rows per channel, sum
exposure across the selected rows, carry the selected channels' energy
bounds forward, and make the union of the requested time ranges the new
GTI. -/
def Phaii.to_pha (t : TimeEnergyBins) (trig : Option ℚ)
    (time_ranges : List (ℚ × ℚ)) (energy_range : ℚ × ℚ) : SpectrumRecord :=
  let rowSel := (List.range t.tstart.length).filter
    (fun i => time_ranges.any (fun tr => overlaps (t.tstart.getD i 0, t.tstop.getD i 0) tr))
  let chanSel := (List.range t.emin.length).filter
    (fun j => overlaps (t.emin.getD j 0, t.emax.getD j 0) energy_range)
  let cnts := chanSel.map (fun j => (rowSel.map (fun i => (t.counts.getD i []).getD j 0)).sum)
  let lo := chanSel.map (fun j => t.emin.getD j 0)
  let hi := chanSel.map (fun j => t.emax.getD j 0)
  let expo := qsum (rowSel.map (fun i => t.exposure.getD i 0))
  let gti : Option Gti := some ⟨time_ranges⟩
  ⟨cnts, ⟨lo, hi⟩, List.replicate cnts.length true, expo, trig, gti, none,
    syncHeaders cnts.length expo (timeRangePair gti expo) trig⟩

/-- One channel of a record, with its count, low and high edge, and mask
bit, used as the working representation of the energy-axis transforms. -/
structure Chan where
  cnt : ℕ
  clo : ℚ
  chi : ℚ
  msk : Bool
deriving DecidableEq

/-- The channels of a record as a single parallel-array zip. -/
def channelsOf (r : SpectrumRecord) : List Chan :=
  List.zipWith (fun c p => ⟨c, p.1.1, p.1.2, p.2⟩) r.counts
    ((r.ebounds.lo.zip r.ebounds.hi).zip r.channel_mask)

/-- Fueled worker of `chunkList`: splits a list into adjacent groups of
size `k + 1` (the last group may be smaller), consuming one unit of fuel
per group; the fuel only makes the recursion structural and is
sufficient whenever it is at least the list length. -/
def chunkFuel : ℕ → ℕ → List Chan → List (List Chan)
  | 0, _, _ => []
  | _ + 1, _, [] => []
  | fuel + 1, k, a :: as => (a :: as.take k) :: chunkFuel fuel k (as.drop k)

/-- Splits a list into adjacent groups of size `k + 1` (the last group
may be smaller). -/
def chunkList (k : ℕ) (l : List Chan) : List (List Chan) :=
  chunkFuel l.length k l

/-- Modelled from the spec: the binning-combination step of
`combine_by_factor` on one group of adjacent channels (section 4.4):
counts are summed, the group's outer bounds become the merged edges, and
the merged mask bit is the conservative AND of the group. -/
def mergeGroup (g : List Chan) : Chan :=
  ⟨(g.map Chan.cnt).sum, ((g.map Chan.clo).headD 0), ((g.map Chan.chi).getLastD 0),
    g.all Chan.msk⟩

/-- Modelled from the spec: the channel-level action of `rebin_energy`
with `combine_by_factor` and factor `f` (section 4.4).  With no energy
range every adjacent group of `f` channels is merged (the final group
may be partial, so the result has ceil(n/f) channels).  With an energy
range, the channels overlapping the range are merged and the channels
outside it pass through unmerged. -/
def rebinChans (f : ℕ) (erange : Option (ℚ × ℚ)) (chans : List Chan) : List Chan :=
  match erange with
  | none => (chunkList (f - 1) chans).map mergeGroup
  | some er =>
    let pre := chans.takeWhile (fun c => !(overlaps (c.clo, c.chi) er))
    let rest := chans.dropWhile (fun c => !(overlaps (c.clo, c.chi) er))
    let mid := rest.takeWhile (fun c => overlaps (c.clo, c.chi) er)
    let post := rest.dropWhile (fun c => overlaps (c.clo, c.chi) er)
    pre ++ (chunkList (f - 1) mid).map mergeGroup ++ post

/-- Modelled from the spec: `rebin_energy` (section 4.4): a new record
with the merged channels, recomputed mask, synchronized DETCHANS, and
the source record untouched (the model is pure); the factor is required
to be at least 1 by the combination function. -/
def SpectrumRecord.rebin_energy (r : SpectrumRecord) (f : ℕ)
    (erange : Option (ℚ × ℚ)) : SpectrumRecord :=
  let nc := rebinChans f erange (channelsOf r)
  ⟨nc.map Chan.cnt, ⟨nc.map Chan.clo, nc.map Chan.chi⟩, nc.map Chan.msk,
    r.exposure, r.trigger_time, r.gti, none,
    syncHeaders nc.length r.exposure (timeRangePair r.gti r.exposure) r.trigger_time⟩

/-- Modelled from the spec: `slice_energy` (section 4.5): keep exactly
the channels whose bounds meet at least one requested band, in original
order with original edges, and update DETCHANS. -/
def SpectrumRecord.slice_energy (r : SpectrumRecord) (bands : List (ℚ × ℚ)) :
    SpectrumRecord :=
  let nc := (channelsOf r).filter (fun c => bands.any (fun b => overlaps (c.clo, c.chi) b))
  ⟨nc.map Chan.cnt, ⟨nc.map Chan.clo, nc.map Chan.chi⟩, nc.map Chan.msk,
    r.exposure, r.trigger_time, r.gti, none,
    syncHeaders nc.length r.exposure (timeRangePair r.gti r.exposure) r.trigger_time⟩

/-- Modelled from the spec: the self-describing persistence container of
section 6: the full header set (derived keys), the EBOUNDS table (one
row of channel index, low edge, high edge per channel), the SPECTRUM
counts column, the GTI rows, the trigger time, and the record-level
exposure.  Values are stored exactly, which satisfies the
at-least-4-decimal-places fidelity the spec demands of the container. -/
structure FitsFile where
  headerSet : Headers
  eboundsRows : List (ℕ × ℚ × ℚ)
  spectrumRows : List ℕ
  gtiRows : List (ℚ × ℚ)
  trig : Option ℚ
  expo : ℚ
deriving DecidableEq

/-- The store backing `write`/`open`: a map from paths to container
files. -/
abbrev FileSystem := List (String × FitsFile)

/-- One step of `basename`: restart the segment after each slash. -/
def basenameStep (acc : List Char) (c : Char) : List Char :=
  if c = '/' then [] else acc ++ [c]

/-- The base name of a path: the segment after the last slash. -/
def basename (p : String) : String := String.mk (p.toList.foldl basenameStep [])

/-- Joining a directory and a file name with a slash. -/
def pathJoin (dir name : String) : String := dir ++ "/" ++ name

/-- Modelled from the spec: serialization of a record into the
section 6 container. -/
def serialize (r : SpectrumRecord) : FitsFile :=
  ⟨r.headers,
    (r.ebounds.lo.zip r.ebounds.hi).enum.map (fun p => (p.1, p.2.1, p.2.2)),
    r.counts,
    (match r.gti with
     | none => []
     | some g => g.intervals),
    r.trigger_time, r.exposure⟩

/-- Modelled from the spec: reconstruction of a record from a container
opened at `fname`: counts from the SPECTRUM column, edges from the
EBOUNDS rows, GTI from the GTI rows, an all-true default mask, and the
filename set to the opened base name. -/
def deserialize (fname : String) (f : FitsFile) : SpectrumRecord :=
  ⟨f.spectrumRows,
    ⟨f.eboundsRows.map (fun p => p.2.1), f.eboundsRows.map (fun p => p.2.2)⟩,
    List.replicate f.spectrumRows.length true,
    f.expo, f.trig, some ⟨f.gtiRows⟩, some fname, f.headerSet⟩

/-- A record with its filename bound after a successful write. -/
def withName (r : SpectrumRecord) (name : String) : SpectrumRecord :=
  ⟨r.counts, r.ebounds, r.channel_mask, r.exposure, r.trigger_time, r.gti,
    some name, r.headers⟩

/-- Modelled from the spec: `write(directory, filename, overwrite)`
(section 4.6): a record that has never been named and is given no
filename fails with NameKind; an existing target without overwrite
fails rather than clobbering; otherwise the serialized container is
stored at directory/name and the record becomes named. -/
def writeRec (r : SpectrumRecord) (dir : String) (filename : Option String)
    (overwrite : Bool) (fs : FileSystem) :
    Except ErrKind (SpectrumRecord × FileSystem) :=
  match filename.orElse (fun _ => r.filename) with
  | none => .error .nameKind
  | some name =>
    let path := pathJoin dir name
    if (fs.lookup path).isSome && !overwrite then .error .existsKind
    else .ok (withName r name, (path, serialize r) :: fs)

/-- Modelled from the spec: `open(path)` (section 4.6): reconstructs the
record stored at the path; the reopened record's filename is the base
name of the opened path. -/
def openRec (path : String) (fs : FileSystem) : Except ErrKind SpectrumRecord :=
  match fs.lookup path with
  | none => .error .valueKind
  | some f => .ok (deserialize (basename path) f)

/-- The GTI start edges of a record, empty when it has no GTI. -/
def SpectrumRecord.gtiLowEdges (r : SpectrumRecord) : List ℚ :=
  match r.gti with
  | none => []
  | some g => g.lowEdges

/-- The GTI stop edges of a record, empty when it has no GTI. -/
def SpectrumRecord.gtiHighEdges (r : SpectrumRecord) : List ℚ :=
  match r.gti with
  | none => []
  | some g => g.highEdges

/-! ### The reference fixture of the test suite -/

/-- The 8-channel, 6-time-bin histogram of `TestPha.setUpClass`, with the
exact decimal values of the test file as rationals. -/
def fixtureBins : TimeEnergyBins :=
  ⟨[[0, 0, 2, 1, 2, 0, 0, 0],
    [3, 16, 10, 13, 14, 4, 3, 3],
    [3, 23, 26, 13, 8, 8, 5, 5],
    [4, 21, 19, 16, 13, 2, 3, 4],
    [4, 20, 17, 11, 15, 2, 1, 5],
    [6, 20, 19, 11, 11, 1, 4, 4]],
   [0, mkRat 39 10000, mkRat 640 10000, mkRat 1280 10000, mkRat 1920 10000,
    mkRat 2560 10000],
   [mkRat 39 10000, mkRat 640 10000, mkRat 1280 10000, mkRat 1920 10000,
    mkRat 2560 10000, mkRat 3200 10000],
   [mkRat 38 10000, mkRat 598 10000, mkRat 638 10000, mkRat 638 10000,
    mkRat 638 10000, mkRat 638 10000],
   [mkRat 432 100, mkRat 115 10, mkRat 262 10, mkRat 496 10, 101, 290, 539, 997],
   [mkRat 115 10, mkRat 262 10, mkRat 496 10, 101, 290, 539, 997, 2000]⟩

/-- The 8-channel Pha record over the fixture's full band: per-channel
time-summed counts, the fixture energy edges, all-true mask, total
exposure, the single fixture GTI and its trigger time, with synchronized
headers. -/
def fixturePha : SpectrumRecord :=
  ⟨[20, 100, 93, 65, 63, 17, 16, 21],
    ⟨[mkRat 432 100, mkRat 115 10, mkRat 262 10, mkRat 496 10, 101, 290, 539, 997],
     [mkRat 115 10, mkRat 262 10, mkRat 496 10, 101, 290, 539, 997, 2000]⟩,
    List.replicate 8 true,
    mkRat 3188 10000,
    some 356223561,
    some ⟨[(0, mkRat 3200 10000)]⟩,
    none,
    syncHeaders 8 (mkRat 3188 10000)
      (timeRangePair (some ⟨[(0, mkRat 3200 10000)]⟩) (mkRat 3188 10000))
      (some 356223561)⟩

/-- The claim C2 scenario: the fixture integrated over time window
(0.0, 0.1) and energy window (8.0, 900.0) with trigger time 356223561.0. -/
def scenarioPha : SpectrumRecord :=
  Phaii.to_pha fixtureBins (some 356223561) [(0, mkRat 1 10)] (8, 900)

/-- The C2 scenario persisted and reopened. -/
def scenarioReopened : Except ErrKind SpectrumRecord :=
  (writeRec scenarioPha "testdir" (some "scenario.pha") false []).bind
    (fun p => openRec (pathJoin "testdir" "scenario.pha") p.2)

/-! ## Theorems

First the bridge from the kernel-evaluable `q`-operations to ordinary ℚ
arithmetic, then helper lemmas, then one theorem per claim. -/

theorem qneg_eq_neg (a : ℚ) : qneg a = -a := by
  rw [qneg, Rat.mkRat_eq_divInt, ← Rat.neg_divInt, Rat.num_divInt_den]

theorem qadd_eq_add (a b : ℚ) : qadd a b = a + b := by
  have ha : (a.den : ℤ) ≠ 0 := by exact_mod_cast a.den_nz
  have hb : (b.den : ℤ) ≠ 0 := by exact_mod_cast b.den_nz
  rw [qadd, Rat.mkRat_eq_divInt]
  conv_rhs => rw [← Rat.num_divInt_den a, ← Rat.num_divInt_den b]
  rw [Rat.divInt_add_divInt _ _ ha hb]
  push_cast
  ring_nf

theorem qsub_eq_sub (a b : ℚ) : qsub a b = a - b := by
  have ha : (a.den : ℤ) ≠ 0 := by exact_mod_cast a.den_nz
  have hb : (b.den : ℤ) ≠ 0 := by exact_mod_cast b.den_nz
  rw [qsub, Rat.mkRat_eq_divInt]
  conv_rhs => rw [← Rat.num_divInt_den a, ← Rat.num_divInt_den b]
  rw [Rat.divInt_sub_divInt _ _ ha hb]
  push_cast
  ring_nf

theorem qmul_eq_mul (a b : ℚ) : qmul a b = a * b := by
  rw [qmul, Rat.mkRat_eq_divInt]
  conv_rhs => rw [← Rat.num_divInt_den a, ← Rat.num_divInt_den b]
  rw [Rat.divInt_mul_divInt']
  push_cast
  ring_nf

theorem qdiv_eq_div (a b : ℚ) : qdiv a b = a / b := by
  have hdiv : a / b = Rat.divInt (a.num * b.den) (a.den * b.num) := by
    conv_lhs => rw [← Rat.num_divInt_den a, ← Rat.num_divInt_den b]
    rw [Rat.divInt_div_divInt]
  rcases lt_or_le b.num 0 with hneg | hpos
  · have habs : (b.num.natAbs : ℤ) = -b.num := Int.ofNat_natAbs_of_nonpos hneg.le
    rw [qdiv, if_pos hneg, Rat.mkRat_eq_divInt, hdiv]
    have : ((a.den * b.num.natAbs : ℕ) : ℤ) = -((a.den : ℤ) * b.num) := by
      push_cast [habs]; ring
    rw [this, Rat.neg_divInt_neg]
  · have habs : (b.num.natAbs : ℤ) = b.num := Int.natAbs_of_nonneg hpos
    rw [qdiv, if_neg (not_lt.mpr hpos), Rat.mkRat_eq_divInt, hdiv]
    congr 1
    push_cast [habs]
    ring

theorem qsum_eq_sum (l : List ℚ) : qsum l = l.sum := by
  induction l with
  | nil => rfl
  | cons a as ih => rw [qsum, qadd_eq_add, ih, List.sum_cons]

/-- Key fact about zipping a list with its own map: every pair that
occurs is of the form (a, f a). -/
theorem mem_zip_map {α β : Type} (f : α → β) :
    ∀ (l : List α) (p : α × β), p ∈ l.zip (l.map f) → p.2 = f p.1 := by
  intro l
  induction l with
  | nil => intro p hp; simp at hp
  | cons a as ih =>
    intro p hp
    rw [List.map_cons, List.zip_cons_cons] at hp
    rcases List.mem_cons.mp hp with h1 | h2
    · rw [h1]
    · exact ih p h2

theorem FP.mul_nan (a : FP) : FP.mul a FP.nan = FP.nan := by
  cases a <;> rfl

theorem FP.nan_mul (a : FP) : FP.mul FP.nan a = FP.nan := rfl

theorem FP.mul_pinf_zero (amp : FP) :
    FP.mul (FP.mul amp FP.pinf) (FP.fin 0) = FP.nan := by
  have h0 : ¬ (0 : ℚ) < 0 := lt_irrefl 0
  cases amp with
  | fin a =>
    by_cases h1 : 0 < a
    · simp [FP.mul, h1, h0]
    · by_cases h2 : a < 0
      · simp [FP.mul, h1, h2, h0]
      · simp [FP.mul, h1, h2]
  | pinf => simp [FP.mul, h0]
  | ninf => simp [FP.mul, h0]
  | nan => rfl

theorem FP.le_trans3 {a b c : FP} (h1 : FP.le a b = true) (h2 : FP.le b c = true) :
    FP.le a c = true := by
  cases a <;> cases b <;> cases c <;> simp_all [FP.le]
  exact le_trans h1 h2

theorem FP.not_le_of_lt {a b : FP} (h : FP.lt a b = true) : FP.le b a = false := by
  cases a <;> cases b <;> simp_all [FP.le, FP.lt]

theorem FP.le_self_left {a b : FP} (h : FP.le a b = true) : FP.le a a = true := by
  cases a <;> cases b <;> simp_all [FP.le]

theorem FP.le_self_right {a b : FP} (h : FP.le a b = true) : FP.le b b = true := by
  cases a <;> cases b <;> simp_all [FP.le]

theorem FP.sub_pos_of_lt {a b : FP} (h : FP.lt a b = true) :
    (∃ p, FP.sub b a = FP.fin p ∧ 0 < p) ∨ FP.sub b a = FP.pinf := by
  cases a with
  | fin qa =>
    cases b with
    | fin qb =>
      have hab : qa < qb := by simpa [FP.lt] using h
      left
      refine ⟨qadd qb (qneg qa), rfl, ?_⟩
      rw [qadd_eq_add, qneg_eq_neg]
      linarith
    | pinf => right; rfl
    | ninf => simp [FP.lt] at h
    | nan => simp [FP.lt] at h
  | pinf => simp [FP.lt] at h
  | ninf =>
    cases b with
    | fin qb => right; rfl
    | pinf => right; rfl
    | ninf => simp [FP.lt] at h
    | nan => simp [FP.lt] at h
  | nan => simp [FP.lt] at h

/-- C7: each of the seven profile functions returns an output of the same
length as its input time array, for every input array and all scalar
parameters (and any finite exp/sqrt kernels for the two profiles that use
them). -/
theorem profiles_preserve_length (e s : ℚ → ℚ) (x : List FP)
    (amp tstart tpeak tstop t_rise t_decay center sigma c0 c1 c2 : FP) :
    (tophat x amp tstart tstop).length = x.length ∧
    (norris e s x amp tstart t_rise t_decay).length = x.length ∧
    (gaussian e x amp center sigma).length = x.length ∧
    (triangular x amp tstart tpeak tstop).length = x.length ∧
    (constant x amp).length = x.length ∧
    (linear x c0 c1).length = x.length ∧
    (quadratic x c0 c1 c2).length = x.length := by
  refine ⟨?_, ?_, ?_, ?_, ?_, ?_, ?_⟩ <;>
    simp [tophat, norris, gaussian, triangular, constant, linear, quadratic]

theorem fp_add_mul_zero (c0 a : FP) (h : a.isFinite = true) :
    FP.add c0 (FP.mul (FP.fin 0) a) = c0 := by
  cases a with
  | fin q =>
    have hm : FP.mul (FP.fin 0) (FP.fin q) = FP.fin 0 := by
      show FP.fin (qmul 0 q) = FP.fin 0
      rw [qmul_eq_mul, zero_mul]
    rw [hm]
    cases c0 with
    | fin c =>
      show FP.fin (qadd c 0) = FP.fin c
      rw [qadd_eq_add, add_zero]
    | pinf => rfl
    | ninf => rfl
    | nan => rfl
  | pinf => simp [FP.isFinite] at h
  | ninf => simp [FP.isFinite] at h
  | nan => simp [FP.isFinite] at h

/-- C10: a linear background with zero slope degenerates to the constant
background on any all-finite time array. -/
theorem linear_zero_slope_constant (x : List FP) (c0 : FP)
    (h : ∀ a ∈ x, a.isFinite = true) :
    linear x c0 (FP.fin 0) = constant x c0 := by
  induction x with
  | nil => rfl
  | cons a as ih =>
    have ha := h a (List.mem_cons_self a as)
    have hrest : ∀ b ∈ as, b.isFinite = true := fun b hb => h b (List.mem_cons_of_mem a hb)
    show FP.add c0 (FP.mul (FP.fin 0) a) :: linear as c0 (FP.fin 0) = c0 :: constant as c0
    rw [fp_add_mul_zero c0 a ha, ih hrest]

/-- C10 witness: the concrete all-finite array [2] with amplitude 5. -/
theorem linear_zero_slope_constant_witness :
    (∀ a ∈ [FP.fin 2], a.isFinite = true) ∧
    linear [FP.fin 2] (FP.fin 5) (FP.fin 0) = constant [FP.fin 2] (FP.fin 5) :=
  ⟨by decide, linear_zero_slope_constant [FP.fin 2] (FP.fin 5) (by decide)⟩

/-- C9: tophat writes `amp` exactly at the positions whose sample
satisfies `tstart <= x[i] <= tstop` (in IEEE comparison) and 0 at every
other position; when `tstart > tstop` the output is all zeros; and when
`tstart <= tstop`, samples lying exactly at `tstart` or `tstop` receive
`amp`. -/
theorem tophat_indicator (x : List FP) (amp tstart tstop : FP) :
    (∀ p ∈ x.zip (tophat x amp tstart tstop),
      (FP.le tstart p.1 && FP.le p.1 tstop) = true → p.2 = amp) ∧
    (∀ p ∈ x.zip (tophat x amp tstart tstop),
      (FP.le tstart p.1 && FP.le p.1 tstop) = false → p.2 = FP.fin 0) ∧
    (FP.lt tstop tstart = true → ∀ y ∈ tophat x amp tstart tstop, y = FP.fin 0) ∧
    (FP.le tstart tstop = true → ∀ p ∈ x.zip (tophat x amp tstart tstop),
      p.1 = tstart ∨ p.1 = tstop → p.2 = amp) := by
  have hz := mem_zip_map
    (fun xi => if (FP.le tstart xi && FP.le xi tstop) = true then amp else FP.fin 0) x
  refine ⟨?_, ?_, ?_, ?_⟩
  · intro p hp hc
    rw [hz p hp]
    simp [hc]
  · intro p hp hc
    rw [hz p hp]
    simp [hc]
  · intro hlt y hy
    rw [tophat] at hy
    obtain ⟨xi, hxi, hfx⟩ := List.mem_map.mp hy
    rw [← hfx]
    have hcf : (FP.le tstart xi && FP.le xi tstop) = false := by
      cases hc : (FP.le tstart xi && FP.le xi tstop) with
      | false => rfl
      | true =>
        exfalso
        obtain ⟨hA, hB⟩ : FP.le tstart xi = true ∧ FP.le xi tstop = true := by
          simpa using hc
        have htr := FP.le_trans3 hA hB
        rw [FP.not_le_of_lt hlt] at htr
        exact Bool.false_ne_true htr
    simp [hcf]
  · intro hle p hp hor
    rw [hz p hp]
    rcases hor with h1 | h2
    · rw [h1]
      simp [FP.le_self_left hle, hle]
    · rw [h2]
      simp [hle, FP.le_self_right hle]

theorem norris_elem_nonfinite (e s : ℚ → ℚ) (amp tstart t_rise xi : FP) (d : ℚ)
    (hr : FP.lt (FP.fin 0) t_rise = true) (hd : d ≤ 0) (hx : FP.lt tstart xi = true) :
    (FP.mul
      (FP.mul amp (FP.expWith e (FP.mul (FP.fin 2) (FP.sqrtWith s (FP.div t_rise (FP.fin d))))))
      (FP.expWith e
        (FP.sub (FP.div (FP.neg t_rise) (FP.sub xi tstart))
          (FP.div (FP.sub xi tstart) (FP.fin d))))).isFinite = false := by
  cases t_rise with
  | nan => simp [FP.lt] at hr
  | ninf => simp [FP.lt] at hr
  | pinf =>
    rcases lt_or_eq_of_le hd with hdlt | hdeq
    · have h1 : FP.div FP.pinf (FP.fin d) = FP.ninf := by
        simp [FP.div, hdlt]
      rw [h1]
      simp [FP.sqrtWith, FP.mul_nan, FP.nan_mul, FP.expWith, FP.isFinite]
    · subst hdeq
      have h1 : FP.div FP.pinf (FP.fin 0) = FP.pinf := by
        simp [FP.div]
      have h3 : FP.mul (FP.fin 2) FP.pinf = FP.pinf := by norm_num [FP.mul]
      rw [h1, show FP.sqrtWith s FP.pinf = FP.pinf from rfl, h3,
        show FP.expWith e FP.pinf = FP.pinf from rfl]
      rcases FP.sub_pos_of_lt hx with ⟨p, hp, hppos⟩ | hpinf
      · rw [hp]
        have hB : FP.div (FP.fin p) (FP.fin 0) = FP.pinf := by
          simp [FP.div, hppos.ne', hppos]
        have hA : FP.div (FP.neg FP.pinf) (FP.fin p) = FP.ninf := by
          simp [FP.neg, FP.div, not_lt.mpr hppos.le]
        rw [hB, hA, show FP.sub FP.ninf FP.pinf = FP.ninf from rfl,
          show FP.expWith e FP.ninf = FP.fin 0 from rfl, FP.mul_pinf_zero]
        rfl
      · rw [hpinf]
        have hB : FP.div FP.pinf (FP.fin 0) = FP.pinf := by simp [FP.div]
        rw [hB, show FP.div (FP.neg FP.pinf) FP.pinf = FP.nan from rfl,
          show FP.sub FP.nan FP.pinf = FP.nan from rfl,
          show FP.expWith e FP.nan = FP.nan from rfl, FP.mul_nan]
        rfl
  | fin r =>
    have hr2 : (0 : ℚ) < r := by simpa [FP.lt] using hr
    rcases lt_or_eq_of_le hd with hdlt | hdeq
    · have hdne : d ≠ 0 := ne_of_lt hdlt
      have h1 : FP.div (FP.fin r) (FP.fin d) = FP.fin (qdiv r d) := by
        simp [FP.div, hdne]
      have h2 : qdiv r d < 0 := by
        rw [qdiv_eq_div]
        exact div_neg_of_pos_of_neg hr2 hdlt
      rw [h1]
      simp [FP.sqrtWith, h2, FP.mul_nan, FP.nan_mul, FP.expWith, FP.isFinite]
    · subst hdeq
      have h1 : FP.div (FP.fin r) (FP.fin 0) = FP.pinf := by
        simp [FP.div, hr2.ne', hr2]
      have h3 : FP.mul (FP.fin 2) FP.pinf = FP.pinf := by norm_num [FP.mul]
      rw [h1, show FP.sqrtWith s FP.pinf = FP.pinf from rfl, h3,
        show FP.expWith e FP.pinf = FP.pinf from rfl]
      rcases FP.sub_pos_of_lt hx with ⟨p, hp, hppos⟩ | hpinf
      · rw [hp]
        have hB : FP.div (FP.fin p) (FP.fin 0) = FP.pinf := by
          simp [FP.div, hppos.ne', hppos]
        have hA : FP.div (FP.neg (FP.fin r)) (FP.fin p) = FP.fin (qdiv (qneg r) p) := by
          simp [FP.neg, FP.div, hppos.ne']
        rw [hB, hA, show FP.sub (FP.fin (qdiv (qneg r) p)) FP.pinf = FP.ninf from rfl,
          show FP.expWith e FP.ninf = FP.fin 0 from rfl, FP.mul_pinf_zero]
        rfl
      · rw [hpinf]
        have hB : FP.div FP.pinf (FP.fin 0) = FP.pinf := by simp [FP.div]
        rw [hB, show FP.div (FP.neg (FP.fin r)) FP.pinf = FP.fin 0 from rfl,
          show FP.sub (FP.fin 0) FP.pinf = FP.ninf from rfl,
          show FP.expWith e FP.ninf = FP.fin 0 from rfl, FP.mul_pinf_zero]
        rfl

/-- C8 counterexample: with `t_rise = 0` (an admissible scalar under the
claim as stated), `t_decay = -1 <= 0` and the sample `1 > tstart = 0`,
the norris output at that sample is finite, refuting the claim that
every such output element is non-finite; and even with `t_rise = 1 > 0`,
the infinite `t_decay = -inf <= 0` also yields a finite output, so the
repaired statement must require a finite decay timescale. -/
theorem norris_nonpositive_decay_counterexample :
    (FP.le (FP.fin (-1)) (FP.fin 0) = true ∧
      FP.lt (FP.fin 0) (FP.fin 1) = true ∧
      ((norris (fun _ => 1) (fun _ => 1) [FP.fin 1] (FP.fin 1) (FP.fin 0) (FP.fin 0)
        (FP.fin (-1))).getD 0 FP.nan).isFinite = true) ∧
    (FP.le FP.ninf (FP.fin 0) = true ∧
      FP.lt (FP.fin 0) (FP.fin 1) = true ∧
      ((norris (fun _ => 1) (fun _ => 1) [FP.fin 1] (FP.fin 1) (FP.fin 0) (FP.fin 1)
        FP.ninf).getD 0 FP.nan).isFinite = true) := by
  decide

/-- C8 (amended): for a strictly positive rise timescale and a finite
non-positive decay timescale, norris returns normally (it is a total
function) and every output element at a position whose sample exceeds
tstart is non-finite. -/
theorem norris_nonpositive_decay_nonfinite (e s : ℚ → ℚ) (x : List FP)
    (amp tstart t_rise : FP) (d : ℚ)
    (hr : FP.lt (FP.fin 0) t_rise = true) (hd : d ≤ 0) :
    ∀ p ∈ x.zip (norris e s x amp tstart t_rise (FP.fin d)),
      FP.lt tstart p.1 = true → p.2.isFinite = false := by
  intro p hp hlt
  have h2 := mem_zip_map (fun xi =>
    if FP.lt tstart xi = true then
      FP.mul
        (FP.mul amp (FP.expWith e (FP.mul (FP.fin 2) (FP.sqrtWith s (FP.div t_rise (FP.fin d))))))
        (FP.expWith e (FP.sub (FP.div (FP.neg t_rise) (FP.sub xi tstart))
          (FP.div (FP.sub xi tstart) (FP.fin d))))
    else FP.fin 0) x p hp
  rw [h2]
  change FP.isFinite (if FP.lt tstart p.1 = true then _ else _) = false
  rw [if_pos hlt]
  exact norris_elem_nonfinite e s amp tstart t_rise p.1 d hr hd hlt

/-- C8 witness: with rise timescale 1, decay timescale 0, amplitude 1 and
the sample 1 above tstart = 0, the output element is NaN. -/
theorem norris_nonpositive_decay_nonfinite_witness :
    FP.lt (FP.fin 0) (FP.fin 1) = true ∧ (0 : ℚ) ≤ 0 ∧
    ((FP.fin 1, FP.nan) ∈ [FP.fin 1].zip
      (norris (fun _ => 1) (fun _ => 1) [FP.fin 1] (FP.fin 1) (FP.fin 0) (FP.fin 1)
        (FP.fin 0))) ∧
    (FP.fin 1, FP.nan).2.isFinite = false :=
  ⟨by decide, le_refl 0, by decide,
    norris_nonpositive_decay_nonfinite (fun _ => 1) (fun _ => 1) [FP.fin 1] (FP.fin 1)
      (FP.fin 0) (FP.fin 1) 0 (by decide) (le_refl 0) (FP.fin 1, FP.nan) (by decide)
      (by decide)⟩

/-- C9 witness: the sample lying exactly at tstart receives the
amplitude. -/
theorem tophat_indicator_witness :
    FP.le (FP.fin 0) (FP.fin 2) = true ∧
    ((FP.fin 0, FP.fin 3) ∈
      [FP.fin 0].zip (tophat [FP.fin 0] (FP.fin 3) (FP.fin 0) (FP.fin 2))) ∧
    (FP.fin 0, FP.fin 3).2 = FP.fin 3 :=
  ⟨by decide, by decide,
    (tophat_indicator [FP.fin 0] (FP.fin 3) (FP.fin 0) (FP.fin 2)).2.2.2
      (by decide) (FP.fin 0, FP.fin 3) (by decide) (Or.inl rfl)⟩

/-- C3: the from_data validation taxonomy: a mask of the wrong length or
a negative trigger time fails with ValueKind; a wrong-typed data object,
gti, headers, or channel_mask fails with TypeKind; and a failed call
produces no record (the model is a pure function, so the caller's prior
state is untouched by construction). -/
theorem from_data_validation :
    (∀ (counts : List ℕ) (lo hi : List ℚ) (ex : ℚ) (m : List Bool),
      m.length ≠ counts.length →
      Pha.from_data (.energyBins counts lo hi ex) none none none (some (.maskObj m)) =
        .error .valueKind) ∧
    (∀ (counts : List ℕ) (lo hi : List ℚ) (ex t : ℚ), t < 0 →
      Pha.from_data (.energyBins counts lo hi ex) none (some t) none none =
        .error .valueKind) ∧
    (∀ (d : PyObj), (∀ c l hh ex2, d ≠ .energyBins c l hh ex2) →
      ∀ gA tA hA mA, Pha.from_data d gA tA hA mA = .error .typeKind) ∧
    (∀ (counts : List ℕ) (lo hi : List ℚ) (ex : ℚ) (g : PyObj),
      (∀ ivs, g ≠ .gtiObj ivs) →
      Pha.from_data (.energyBins counts lo hi ex) (some g) none none none =
        .error .typeKind) ∧
    (∀ (counts : List ℕ) (lo hi : List ℚ) (ex : ℚ) (hobj : PyObj),
      (∀ hs, hobj ≠ .headersObj hs) →
      Pha.from_data (.energyBins counts lo hi ex) none none (some hobj) none =
        .error .typeKind) ∧
    (∀ (counts : List ℕ) (lo hi : List ℚ) (ex : ℚ) (mobj : PyObj),
      (∀ m, mobj ≠ .maskObj m) →
      Pha.from_data (.energyBins counts lo hi ex) none none none (some mobj) =
        .error .typeKind) ∧
    (∀ (dA : PyObj) gA tA hA mA (k : ErrKind) (rec : SpectrumRecord),
      Pha.from_data dA gA tA hA mA = .error k →
      Pha.from_data dA gA tA hA mA ≠ .ok rec) := by
  refine ⟨?_, ?_, ?_, ?_, ?_, ?_, ?_⟩
  · intro counts lo hi ex m h
    simp [Pha.from_data, checkGti, checkTrigger, checkHeaders, checkMask, Except.bind, h]
  · intro counts lo hi ex t ht
    simp [Pha.from_data, checkGti, checkTrigger, Except.bind, ht]
  · intro d hd gA tA hA mA
    cases d with
    | energyBins c l hh ex2 => exact absurd rfl (hd c l hh ex2)
    | gtiObj ivs => rfl
    | headersObj hs => rfl
    | maskObj m => rfl
    | histObj a b c2 d2 e2 f2 => rfl
  · intro counts lo hi ex g hg
    cases g with
    | gtiObj ivs => exact absurd rfl (hg ivs)
    | energyBins c l hh ex2 => rfl
    | headersObj hs => rfl
    | maskObj m => rfl
    | histObj a b c2 d2 e2 f2 => rfl
  · intro counts lo hi ex hobj hh
    cases hobj with
    | headersObj hs => exact absurd rfl (hh hs)
    | energyBins c l hh2 ex2 => rfl
    | gtiObj ivs => rfl
    | maskObj m => rfl
    | histObj a b c2 d2 e2 f2 => rfl
  · intro counts lo hi ex mobj hm
    cases mobj with
    | maskObj m => exact absurd rfl (hm m)
    | energyBins c l hh2 ex2 => rfl
    | gtiObj ivs => rfl
    | headersObj hs => rfl
    | histObj a b c2 d2 e2 f2 => rfl
  · intro dA gA tA hA mA k rec he hok
    rw [he] at hok
    exact Except.noConfusion hok

/-- C3 witness: a one-entry mask against a zero-channel data object, and
a trigger time of -10. -/
theorem from_data_validation_witness :
    ([true].length ≠ ([] : List ℕ).length) ∧
    Pha.from_data (.energyBins [] [] [] 0) none none none (some (.maskObj [true])) =
      .error .valueKind ∧
    ((-10 : ℚ) < 0) ∧
    Pha.from_data (.energyBins [1, 2] [0, 1] [1, 2] 1) none (some (-10)) none none =
      .error .valueKind :=
  ⟨by decide, from_data_validation.1 [] [] [] 0 [true] (by decide),
    by norm_num, from_data_validation.2.1 [1, 2] [0, 1] [1, 2] 1 (-10) (by norm_num)⟩

/-- C4: writing a record that has never been named, with no filename
argument, fails with NameKind. -/
theorem write_unnamed_name_error (r : SpectrumRecord) (dir : String) (ow : Bool)
    (fs : FileSystem) (h : r.filename = none) :
    writeRec r dir none ow fs = .error .nameKind := by
  simp [writeRec, Option.orElse, h]

/-- C4 witness: the record freshly produced by integration has no
filename, and writing it without one fails with NameKind. -/
theorem write_unnamed_name_error_witness :
    scenarioPha.filename = none ∧
    writeRec scenarioPha "testdir" none false [] = .error .nameKind :=
  ⟨rfl, write_unnamed_name_error scenarioPha "testdir" false [] rfl⟩

theorem checkMask_length (n : ℕ) (mo : Option PyObj) (m : List Bool)
    (h : checkMask n mo = .ok m) : m.length = n := by
  cases mo with
  | none =>
    simp only [checkMask] at h
    obtain rfl := Except.ok.inj h
    exact List.length_replicate n true
  | some o =>
    cases o with
    | maskObj m2 =>
      simp only [checkMask] at h
      split at h
      · obtain rfl := Except.ok.inj h
        assumption
      · exact Except.noConfusion h
    | energyBins c l hh ex => exact Except.noConfusion h
    | gtiObj ivs => exact Except.noConfusion h
    | headersObj hs => exact Except.noConfusion h
    | histObj a b c2 d2 e2 f2 => exact Except.noConfusion h

theorem from_data_wf (dA : PyObj) (gA : Option PyObj) (tA : Option ℚ)
    (hA mA : Option PyObj) (rec : SpectrumRecord)
    (hok : Pha.from_data dA gA tA hA mA = Except.ok rec) : rec.wf := by
  cases dA with
  | gtiObj ivs => exact Except.noConfusion hok
  | headersObj hs => exact Except.noConfusion hok
  | maskObj m => exact Except.noConfusion hok
  | histObj a b c2 d2 e2 f2 => exact Except.noConfusion hok
  | energyBins counts lo hi ex =>
    simp only [Pha.from_data] at hok
    cases hg : checkGti gA with
    | error k => rw [hg] at hok; exact Except.noConfusion hok
    | ok gv =>
      rw [hg] at hok
      simp only [Except.bind] at hok
      cases ht : checkTrigger tA with
      | error k => rw [ht] at hok; exact Except.noConfusion hok
      | ok tv =>
        rw [ht] at hok
        simp only [Except.bind] at hok
        cases hh : checkHeaders hA with
        | error k => rw [hh] at hok; exact Except.noConfusion hok
        | ok hv =>
          rw [hh] at hok
          simp only [Except.bind] at hok
          cases hm : checkMask counts.length mA with
          | error k => rw [hm] at hok; exact Except.noConfusion hok
          | ok mask =>
            rw [hm] at hok
            simp only [Except.bind] at hok
            obtain rfl := (Except.ok.inj hok).symm
            exact checkMask_length counts.length mA mask hm

/-- C6: valid_channels is the strictly ascending list of mask-true
channel indices, never longer than num_chans, and the mask-per-channel
shape invariant behind it is established or preserved by every operation
producing a record: from_data, integration, rebin_energy, slice_energy,
write, and open. -/
theorem valid_channels_invariant :
    (∀ r : SpectrumRecord,
      List.Pairwise (fun a b => a < b) r.valid_channels ∧
      r.valid_channels.length ≤ r.num_chans ∧
      (∀ i, i ∈ r.valid_channels ↔ i < r.num_chans ∧ r.channel_mask.getD i false = true)) ∧
    (∀ dA gA tA hA mA rec, Pha.from_data dA gA tA hA mA = Except.ok rec → rec.wf) ∧
    (∀ t trig trs er, (Phaii.to_pha t trig trs er).wf) ∧
    (∀ (r : SpectrumRecord) f er, (r.rebin_energy f er).wf) ∧
    (∀ (r : SpectrumRecord) bands, (r.slice_energy bands).wf) ∧
    (∀ r dir fn ow fs r1 fs2, writeRec r dir fn ow fs = Except.ok (r1, fs2) →
      r.wf → r1.wf) ∧
    (∀ path fs rec, openRec path fs = Except.ok rec → rec.wf) := by
  refine ⟨?_, ?_, ?_, ?_, ?_, ?_, ?_⟩
  · intro r
    refine ⟨?_, ?_, ?_⟩
    · exact (List.pairwise_lt_range r.num_chans).filter _
    · calc r.valid_channels.length ≤ (List.range r.num_chans).length :=
            List.length_filter_le _ _
        _ = r.num_chans := List.length_range r.num_chans
    · intro i
      simp [SpectrumRecord.valid_channels, List.mem_filter, List.mem_range]
  · intro dA gA tA hA mA rec hok
    exact from_data_wf dA gA tA hA mA rec hok
  · intro t trig trs er
    simp [Phaii.to_pha, SpectrumRecord.wf]
  · intro r f er
    simp [SpectrumRecord.rebin_energy, SpectrumRecord.wf]
  · intro r bands
    simp [SpectrumRecord.slice_energy, SpectrumRecord.wf]
  · intro r dir fn ow fs r1 fs2 hw hwf
    cases hname : fn.orElse (fun _ => r.filename) with
    | none =>
      rw [writeRec, hname] at hw
      exact Except.noConfusion hw
    | some name =>
      have hred : writeRec r dir fn ow fs =
          (if ((fs.lookup (pathJoin dir name)).isSome && !ow) = true then
            Except.error .existsKind
          else Except.ok (withName r name, (pathJoin dir name, serialize r) :: fs)) := by
        rw [writeRec, hname]
      rw [hred] at hw
      split at hw
      · exact Except.noConfusion hw
      · obtain ⟨h1, h2⟩ := Prod.mk.inj (Except.ok.inj hw)
        rw [← h1]
        exact hwf
  · intro path fs rec hok
    cases hl : fs.lookup path with
    | none => rw [openRec, hl] at hok; exact Except.noConfusion hok
    | some f =>
      rw [openRec, hl] at hok
      obtain rfl := (Except.ok.inj hok).symm
      simp [deserialize, SpectrumRecord.wf]

/-- C6 witness: a one-channel from_data call produces a record satisfying
the mask-shape invariant. -/
theorem valid_channels_invariant_witness :
    Pha.from_data (.energyBins [5] [0] [1] 2) none none none none =
      Except.ok (⟨[5], ⟨[0], [1]⟩, [true], 2, none, none, none,
        syncHeaders 1 2 (0, 2) none⟩ : SpectrumRecord) ∧
    (⟨[5], ⟨[0], [1]⟩, [true], 2, none, none, none,
      syncHeaders 1 2 (0, 2) none⟩ : SpectrumRecord).wf :=
  ⟨by decide,
    valid_channels_invariant.2.1 (.energyBins [5] [0] [1] 2) none none none none _
      (by decide)⟩

theorem channelsOf_length (r : SpectrumRecord) (h : r.uniform) :
    (channelsOf r).length = r.num_chans := by
  obtain ⟨h1, h2, h3⟩ := h
  simp only [channelsOf, List.length_zipWith, List.length_zip, SpectrumRecord.num_chans,
    h1, h2, h3]
  omega

theorem chunkFuel_length (k : ℕ) :
    ∀ (fuel : ℕ) (l : List Chan), l.length ≤ fuel →
      (chunkFuel fuel k l).length = (l.length + k) / (k + 1) := by
  intro fuel
  induction fuel with
  | zero =>
    intro l hl
    have hnil : l = [] := List.eq_nil_of_length_eq_zero (Nat.le_zero.mp hl)
    subst hnil
    simp [chunkFuel, Nat.div_eq_of_lt (Nat.lt_succ_self k)]
  | succ fuel ih =>
    intro l hl
    cases l with
    | nil => simp [chunkFuel, Nat.div_eq_of_lt (Nat.lt_succ_self k)]
    | cons a as =>
      simp only [chunkFuel, List.length_cons]
      rw [ih (as.drop k) (by simp only [List.length_drop]; simp at hl; omega)]
      simp only [List.length_drop]
      rcases le_or_lt k as.length with hk | hk
      · rw [Nat.sub_add_cancel hk]
        have harr : as.length + 1 + k = as.length + (k + 1) := by omega
        rw [harr, Nat.add_div_right _ (Nat.succ_pos k)]
      · have h1 : as.length - k = 0 := by omega
        rw [h1, Nat.zero_add, Nat.div_eq_of_lt (Nat.lt_succ_self k)]
        have harr : as.length + 1 + k = as.length + (k + 1) := by omega
        rw [harr, Nat.add_div_right _ (Nat.succ_pos k),
          Nat.div_eq_of_lt (by omega : as.length < k + 1)]

theorem rebin_count_bounds (a m b f : ℕ) (hf : 1 ≤ f) :
    (a + m + b) / f ≤ a + (m + (f - 1)) / f + b ∧
    a + (m + (f - 1)) / f + b ≤ a + m + b := by
  constructor
  · have h1 : (a + m + b) / f ≤ (f * (a + b) + m) / f := by
      apply Nat.div_le_div_right
      have : a + b ≤ f * (a + b) := Nat.le_mul_of_pos_left _ (by omega)
      omega
    rw [Nat.mul_add_div (by omega : 0 < f)] at h1
    have h2 : m / f ≤ (m + (f - 1)) / f := Nat.div_le_div_right (Nat.le_add_right m (f - 1))
    omega
  · have h3 : (m + (f - 1)) / f ≤ m := by
      rw [Nat.div_le_iff_le_mul_add_pred (by omega : 0 < f)]
      have : m ≤ f * m := Nat.le_mul_of_pos_left m (by omega)
      omega
    omega

theorem rebinChans_length_none (f : ℕ) (hf : 1 ≤ f) (chans : List Chan) :
    (rebinChans f none chans).length = (chans.length + (f - 1)) / f := by
  simp only [rebinChans, chunkList, List.length_map]
  rw [chunkFuel_length (f - 1) chans.length chans (le_refl _), Nat.sub_add_cancel hf]

theorem rebinChans_length_some (f : ℕ) (hf : 1 ≤ f) (er : ℚ × ℚ) (chans : List Chan) :
    ∃ a mlen b, a + mlen + b = chans.length ∧
      (rebinChans f (some er) chans).length = a + (mlen + (f - 1)) / f + b := by
  have hs1 : (chans.takeWhile (fun c => !(overlaps (c.clo, c.chi) er))) ++
      (chans.dropWhile (fun c => !(overlaps (c.clo, c.chi) er))) = chans := by
    apply List.takeWhile_append_dropWhile
  have hs2 : ((chans.dropWhile (fun c => !(overlaps (c.clo, c.chi) er))).takeWhile
        (fun c => overlaps (c.clo, c.chi) er)) ++
      ((chans.dropWhile (fun c => !(overlaps (c.clo, c.chi) er))).dropWhile
        (fun c => overlaps (c.clo, c.chi) er)) =
      chans.dropWhile (fun c => !(overlaps (c.clo, c.chi) er)) := by
    apply List.takeWhile_append_dropWhile
  refine ⟨(chans.takeWhile (fun c => !(overlaps (c.clo, c.chi) er))).length,
    ((chans.dropWhile (fun c => !(overlaps (c.clo, c.chi) er))).takeWhile
      (fun c => overlaps (c.clo, c.chi) er)).length,
    ((chans.dropWhile (fun c => !(overlaps (c.clo, c.chi) er))).dropWhile
      (fun c => overlaps (c.clo, c.chi) er)).length, ?_, ?_⟩
  · have l1 := congrArg List.length hs1
    have l2 := congrArg List.length hs2
    simp only [List.length_append] at l1 l2
    omega
  · simp only [rebinChans, List.length_append, List.length_map, chunkList]
    rw [chunkFuel_length (f - 1) _ _ (le_refl _), Nat.sub_add_cancel hf]

/-- C5: rebinning by factor 1 over the full range leaves num_chans
unchanged; rebinning by factor f over the full range yields ceil(n/f)
channels (the combination function completes a partial final group,
which is the ceil side of the claimed ceil-or-floor policy); for every
factor f >= 1 and every optional energy range the resulting channel
count lies between floor(n/f) and n; and the 8-channel fixture rebinned
by factor 2 over (25.0, 750.0) yields 5 channels. -/
theorem rebin_energy_shape (r : SpectrumRecord) (hr : r.uniform) :
    (r.rebin_energy 1 none).num_chans = r.num_chans ∧
    (∀ f, 1 ≤ f → (r.rebin_energy f none).num_chans = (r.num_chans + (f - 1)) / f) ∧
    (∀ f er, 1 ≤ f →
      r.num_chans / f ≤ (r.rebin_energy f er).num_chans ∧
      (r.rebin_energy f er).num_chans ≤ r.num_chans) ∧
    (fixturePha.rebin_energy 2 (some (25, 750))).num_chans = 5 := by
  have hnum : ∀ f er, (r.rebin_energy f er).num_chans =
      (rebinChans f er (channelsOf r)).length := by
    intro f er
    simp [SpectrumRecord.rebin_energy, SpectrumRecord.num_chans, List.length_map]
  have hfull : ∀ f, 1 ≤ f →
      (r.rebin_energy f none).num_chans = (r.num_chans + (f - 1)) / f := by
    intro f hf
    rw [hnum, rebinChans_length_none f hf, channelsOf_length r hr]
  refine ⟨?_, hfull, ?_, by decide⟩
  · rw [hfull 1 (le_refl 1)]
    simp
  · intro f er hf
    cases er with
    | none =>
      rw [hfull f hf]
      have := rebin_count_bounds 0 r.num_chans 0 f hf
      simpa using this
    | some band =>
      obtain ⟨a, mlen, b, hsum, hlen⟩ := rebinChans_length_some f hf band (channelsOf r)
      rw [channelsOf_length r hr] at hsum
      rw [hnum, hlen, ← hsum]
      exact rebin_count_bounds a mlen b f hf

/-- C5 witness: the 8-channel fixture rebinned by factor 2 over the full
range has ceil(8/2) = 4 channels. -/
theorem rebin_energy_shape_witness :
    fixturePha.uniform ∧ (1 : ℕ) ≤ 2 ∧
    (fixturePha.rebin_energy 2 none).num_chans = (fixturePha.num_chans + (2 - 1)) / 2 :=
  ⟨by decide, by decide, (rebin_energy_shape fixturePha (by decide)).2.1 2 (by decide)⟩

theorem serialize_lo (r : SpectrumRecord) (h : r.ebounds.lo.length ≤ r.ebounds.hi.length) :
    (serialize r).eboundsRows.map (fun p => p.2.1) = r.ebounds.lo := by
  simp only [serialize]
  rw [List.map_map]
  rw [show ((fun (p : ℕ × ℚ × ℚ) => p.2.1) ∘
      (fun (p : ℕ × (ℚ × ℚ)) => (p.1, p.2.1, p.2.2))) =
    (Prod.fst ∘ Prod.snd) from rfl]
  rw [← List.map_map, List.enum_map_snd]
  exact List.map_fst_zip _ _ h

theorem serialize_hi (r : SpectrumRecord) (h : r.ebounds.hi.length ≤ r.ebounds.lo.length) :
    (serialize r).eboundsRows.map (fun p => p.2.2) = r.ebounds.hi := by
  simp only [serialize]
  rw [List.map_map]
  rw [show ((fun (p : ℕ × ℚ × ℚ) => p.2.2) ∘
      (fun (p : ℕ × (ℚ × ℚ)) => (p.1, p.2.1, p.2.2))) =
    (Prod.snd ∘ Prod.snd) from rfl]
  rw [← List.map_map, List.enum_map_snd]
  exact List.map_snd_zip _ _ h

theorem serialize_gti_lows (r : SpectrumRecord) :
    ((serialize r).gtiRows).map Prod.fst = r.gtiLowEdges := by
  cases hg : r.gti <;>
    simp [serialize, SpectrumRecord.gtiLowEdges, Gti.lowEdges, hg]

theorem serialize_gti_highs (r : SpectrumRecord) :
    ((serialize r).gtiRows).map Prod.snd = r.gtiHighEdges := by
  cases hg : r.gti <;>
    simp [serialize, SpectrumRecord.gtiHighEdges, Gti.highEdges, hg]

/-- C1: a record written with write and reopened with open reproduces the
per-channel counts exactly, every energy edge and GTI bound to within
1/10000 (at least 4 decimal places), num_chans, trigtime, exposure and
the derived header keys (TSTART, TSTOP, TRIGTIME, DETCHANS in both
blocks, EXPOSURE) exactly, and its filename is the base name of the
opened path. -/
theorem pha_write_open_roundtrip (r : SpectrumRecord) (dir name : String) (ow : Bool)
    (fs fs2 : FileSystem) (r1 r2 : SpectrumRecord)
    (hu : r.uniform)
    (hw : writeRec r dir (some name) ow fs = Except.ok (r1, fs2))
    (ho : openRec (pathJoin dir name) fs2 = Except.ok r2) :
    r2.counts = r.counts ∧
    (∀ i, |r2.ebounds.lo.getD i 0 - r.ebounds.lo.getD i 0| < 1 / 10000) ∧
    (∀ i, |r2.ebounds.hi.getD i 0 - r.ebounds.hi.getD i 0| < 1 / 10000) ∧
    (∀ i, |r2.gtiLowEdges.getD i 0 - r.gtiLowEdges.getD i 0| < 1 / 10000) ∧
    (∀ i, |r2.gtiHighEdges.getD i 0 - r.gtiHighEdges.getD i 0| < 1 / 10000) ∧
    r2.num_chans = r.num_chans ∧
    r2.trigger_time = r.trigger_time ∧
    r2.exposure = r.exposure ∧
    r2.headers.tstartKey = r.headers.tstartKey ∧
    r2.headers.tstopKey = r.headers.tstopKey ∧
    r2.headers.trigtimeKey = r.headers.trigtimeKey ∧
    r2.headers.eboundsDetchans = r.headers.eboundsDetchans ∧
    r2.headers.spectrumDetchans = r.headers.spectrumDetchans ∧
    r2.headers.exposureKey = r.headers.exposureKey ∧
    r2.filename = some (basename (pathJoin dir name)) := by
  obtain ⟨hu1, hu2, hu3⟩ := hu
  -- step 1: invert the write
  cases hc : ((fs.lookup (pathJoin dir name)).isSome && !ow) with
  | true =>
    have : writeRec r dir (some name) ow fs = .error .existsKind := by
      rw [writeRec]
      simp [Option.orElse, hc]
    rw [this] at hw
    exact Except.noConfusion hw
  | false =>
    have heq : writeRec r dir (some name) ow fs =
        .ok (withName r name, (pathJoin dir name, serialize r) :: fs) := by
      rw [writeRec]
      simp [Option.orElse, hc]
    rw [heq] at hw
    obtain ⟨h1, h2⟩ := Prod.mk.inj (Except.ok.inj hw)
    -- step 2: invert the open
    have hlook : ((pathJoin dir name, serialize r) :: fs).lookup (pathJoin dir name) =
        some (serialize r) := by
      simp [List.lookup]
    rw [← h2, openRec, hlook] at ho
    obtain rfl := (Except.ok.inj ho).symm
    -- step 3: componentwise
    have hlo : (deserialize (basename (pathJoin dir name)) (serialize r)).ebounds.lo =
        r.ebounds.lo := serialize_lo r (by omega)
    have hhi : (deserialize (basename (pathJoin dir name)) (serialize r)).ebounds.hi =
        r.ebounds.hi := serialize_hi r (by omega)
    have hgl : (deserialize (basename (pathJoin dir name)) (serialize r)).gtiLowEdges =
        r.gtiLowEdges := serialize_gti_lows r
    have hgh : (deserialize (basename (pathJoin dir name)) (serialize r)).gtiHighEdges =
        r.gtiHighEdges := serialize_gti_highs r
    refine ⟨rfl, ?_, ?_, ?_, ?_, rfl, rfl, rfl, rfl, rfl, rfl, rfl, rfl, rfl, rfl⟩
    · intro i
      rw [hlo, sub_self, abs_zero]
      norm_num
    · intro i
      rw [hhi, sub_self, abs_zero]
      norm_num
    · intro i
      rw [hgl, sub_self, abs_zero]
      norm_num
    · intro i
      rw [hgh, sub_self, abs_zero]
      norm_num

/-- C1 witness: the 8-channel fixture record written to d/t.pha and
reopened reproduces its counts. -/
theorem pha_write_open_roundtrip_witness :
    fixturePha.uniform ∧
    (deserialize (basename (pathJoin "d" "t.pha")) (serialize fixturePha)).counts =
      fixturePha.counts :=
  ⟨by decide,
    (pha_write_open_roundtrip fixturePha "d" "t.pha" false []
      [(pathJoin "d" "t.pha", serialize fixturePha)] (withName fixturePha "t.pha")
      (deserialize (basename (pathJoin "d" "t.pha")) (serialize fixturePha))
      (by decide) (by decide) (by decide)).1⟩

/-- C2 counterexample: integrating the inline 8-channel, 6-time-bin
fixture with trigger time 356223561.0 over time window (0.0, 0.1) and
energy window (8.0, 900.0), then persisting and reopening it, does not
produce the claimed tuple (num_chans 8, exposure 0.25459924, trigtime
356223561.133346, time_range (-899.0864419937134, -898.8306360244751)):
already num_chans is 7, since channel 8 (997 to 2000 keV) does not
overlap the energy window. -/
theorem fixture_scenario_counterexample :
    ¬ (scenarioReopened.map
        (fun r => (r.num_chans, r.exposure, r.trigger_time, r.time_range)) =
      Except.ok (8, mkRat 25459924 100000000, some (mkRat 356223561133346 1000000),
        (mkRat (-8990864419937134) 10000000000000,
          mkRat (-8988306360244751) 10000000000000))) := by
  decide

/-- C2 (amended): the reference scenario, computed on the inline fixture
under the spec's integration semantics, yields after persisting and
reopening a record with num_chans 7, exposure 0.1274 (the summed
exposure of the three overlapped time bins), trigtime 356223561.0 (the
constructed trigger time), and time_range (0.0, 0.1) (the requested
window, which becomes the new GTI). -/
theorem fixture_scenario_values :
    scenarioReopened.map
        (fun r => (r.num_chans, r.exposure, r.trigger_time, r.time_range)) =
      Except.ok (7, mkRat 1274 10000, some 356223561, (0, mkRat 1 10)) := by
  decide

end Gdt
